import Mathlib

/-!
Verification of the XGBoost training-pipeline core of
GlobalMin/xgboost-next-app-example (directory python_api/).

The Python sources are shallowly embedded: pure functions become Lean
functions over lists, rationals stand in for Python floats (the code paths
verified here use only arithmetic that is exact in both), association lists
in insertion order stand in for Python dicts, and `Except` stands in for
raised exceptions.  Function and field names follow the source.
-/

namespace XgbApp

/-! ## Generic list helpers

`dedupAdj` removes adjacent duplicates; composed with a sort it models
`numpy.unique` (sorted distinct values), which is what both
`sklearn.preprocessing.OrdinalEncoder.fit` and `pandas.qcut`'s
`duplicates="drop"` use on their inputs. -/

def dedupAdj {α : Type} [DecidableEq α] : List α → List α
  | [] => []
  | [a] => [a]
  | a :: b :: rest => if a = b then dedupAdj (b :: rest) else a :: dedupAdj (b :: rest)

/-- Kernel-reducible comparison for strings, agreeing with the
lexicographic `LinearOrder String` (numpy's string order); the default
decision procedure `String.ltb` does not reduce inside the kernel. -/
instance stringFastDecidableLE : DecidableRel (α := String) (· ≤ ·) := fun a b =>
  decidable_of_iff (a.toList ≤ b.toList) String.le_iff_toList_le.symm

/-- `numpy.unique`: sort ascending, then drop duplicates. -/
def npUnique {α : Type} [LinearOrder α] [DecidableEq α]
    [DecidableRel (α := α) (· ≤ ·)] (l : List α) : List α :=
  dedupAdj (l.insertionSort (· ≤ ·))

@[simp]
theorem dedupAdj_nil {α : Type} [DecidableEq α] : dedupAdj ([] : List α) = [] := rfl

@[simp]
theorem dedupAdj_singleton {α : Type} [DecidableEq α] (a : α) : dedupAdj [a] = [a] := rfl

theorem dedupAdj_cons_eq {α : Type} [DecidableEq α] (a : α) (rest : List α) :
    dedupAdj (a :: a :: rest) = dedupAdj (a :: rest) := by
  simp [dedupAdj]

theorem dedupAdj_cons_ne {α : Type} [DecidableEq α] {a b : α} (h : a ≠ b) (rest : List α) :
    dedupAdj (a :: b :: rest) = a :: dedupAdj (b :: rest) := by
  simp [dedupAdj, h]

theorem mem_dedupAdj {α : Type} [DecidableEq α] (l : List α) (x : α) :
    x ∈ dedupAdj l ↔ x ∈ l := by
  induction l with
  | nil => simp
  | cons a t ih =>
    cases t with
    | nil => simp [dedupAdj]
    | cons b rest =>
      by_cases hab : a = b
      · subst hab
        rw [dedupAdj_cons_eq, ih]
        constructor
        · intro h; exact List.mem_cons_of_mem _ h
        · intro h
          rcases List.mem_cons.mp h with h | h
          · subst h; exact List.mem_cons_self _ _
          · exact h
      · rw [dedupAdj_cons_ne hab]
        constructor
        · intro h
          rcases List.mem_cons.mp h with h | h
          · subst h; exact List.mem_cons_self _ _
          · exact List.mem_cons_of_mem _ ((ih).mp h)
        · intro h
          rcases List.mem_cons.mp h with h | h
          · subst h; exact List.mem_cons_self _ _
          · exact List.mem_cons_of_mem _ ((ih).mpr h)

theorem dedupAdj_head {α : Type} [DecidableEq α] (a : α) (t : List α) :
    ∃ u, dedupAdj (a :: t) = a :: u := by
  induction t generalizing a with
  | nil => exact ⟨[], rfl⟩
  | cons b rest ih =>
    by_cases hab : a = b
    · subst hab
      rw [dedupAdj_cons_eq]
      exact ih a
    · exact ⟨dedupAdj (b :: rest), dedupAdj_cons_ne hab rest⟩

theorem dedupAdj_sorted_strict {α : Type} [LinearOrder α] [DecidableEq α] (l : List α)
    (h : l.Sorted (· ≤ ·)) : (dedupAdj l).Sorted (· < ·) := by
  induction l with
  | nil => simp
  | cons a t ih =>
    cases t with
    | nil => simp [dedupAdj]
    | cons b rest =>
      have hab : a ≤ b := (List.sorted_cons.mp h).1 b (List.mem_cons_self _ _)
      have htail : (b :: rest).Sorted (· ≤ ·) := (List.sorted_cons.mp h).2
      by_cases heq : a = b
      · subst heq
        rw [dedupAdj_cons_eq]
        exact ih htail
      · have hlt : a < b := lt_of_le_of_ne hab heq
        rw [dedupAdj_cons_ne heq, List.sorted_cons]
        refine ⟨?_, ih htail⟩
        intro x hx
        have hx' : x ∈ b :: rest := (mem_dedupAdj _ _).mp hx
        rcases List.mem_cons.mp hx' with h | h
        · subst h; exact hlt
        · exact lt_of_lt_of_le hlt ((List.sorted_cons.mp htail).1 x h)

theorem npUnique_sorted_strict {α : Type} [LinearOrder α] [DecidableEq α]
    [DecidableRel (α := α) (· ≤ ·)] (l : List α) :
    (npUnique l).Sorted (· < ·) :=
  dedupAdj_sorted_strict _ (List.sorted_insertionSort _ l)

theorem mem_npUnique {α : Type} [LinearOrder α] [DecidableEq α]
    [DecidableRel (α := α) (· ≤ ·)] (l : List α) (x : α) :
    x ∈ npUnique l ↔ x ∈ l := by
  rw [npUnique, mem_dedupAdj]
  exact (List.perm_insertionSort _ l).mem_iff

/-! ## Python values and dicts

Parameter values appearing in this code base are ints, floats and strings.
Dicts are association lists kept in insertion order (Python 3.7+ semantics);
`dictSet` overwrites in place on a key hit and appends otherwise, which is
exactly `d[k] = v`, and `dictUpdate` is `d.update(upd)`. -/

inductive PyVal : Type
  | int (i : ℤ)
  | float (q : ℚ)
  | str (s : String)
deriving DecidableEq

abbrev Params := List (String × PyVal)

abbrev Grid := List (String × List PyVal)

def dictSet (d : Params) (k : String) (v : PyVal) : Params :=
  if d.any (fun p => p.1 = k) then
    d.map (fun p => if p.1 = k then (k, v) else p)
  else d ++ [(k, v)]

def dictUpdate (d : Params) (upd : Params) : Params :=
  upd.foldl (fun acc p => dictSet acc p.1 p.2) d

/-! ## python_api/xgb_params.py

`VALID_XGBOOST_PARAMS` is the table at the top of the file; a range given
with Python list brackets is inclusive on both ends and one given as a tuple
excludes its minimum (see `validate_param_value`); `max := none` stands for
`float("inf")`. -/

inductive PType : Type
  | pfloat
  | pint
  | pstr
deriving DecidableEq

structure RangeSpec : Type where
  min : ℚ
  max : Option ℚ
  inclusiveMin : Bool
deriving DecidableEq

structure ParamInfo : Type where
  type : PType
  range : Option RangeSpec := none
  values : Option (List PyVal) := none
  aliases : List String := []  -- source field name: alias (a Lean keyword)
deriving DecidableEq

def VALID_XGBOOST_PARAMS : List (String × ParamInfo) :=
  [ ("eta", { type := .pfloat, range := some ⟨0, some 1, false⟩, aliases := ["learning_rate"] }),
    ("learning_rate", { type := .pfloat, range := some ⟨0, some 1, false⟩, aliases := ["eta"] }),
    ("gamma", { type := .pfloat, range := some ⟨0, none, true⟩ }),
    ("max_depth", { type := .pint, range := some ⟨0, none, true⟩ }),
    ("min_child_weight", { type := .pfloat, range := some ⟨0, none, true⟩ }),
    ("max_delta_step", { type := .pfloat, range := some ⟨0, none, true⟩ }),
    ("subsample", { type := .pfloat, range := some ⟨0, some 1, false⟩ }),
    ("colsample_bytree", { type := .pfloat, range := some ⟨0, some 1, false⟩ }),
    ("colsample_bylevel", { type := .pfloat, range := some ⟨0, some 1, false⟩ }),
    ("colsample_bynode", { type := .pfloat, range := some ⟨0, some 1, false⟩ }),
    ("lambda", { type := .pfloat, range := some ⟨0, none, true⟩, aliases := ["reg_lambda"] }),
    ("reg_lambda", { type := .pfloat, range := some ⟨0, none, true⟩, aliases := ["lambda"] }),
    ("alpha", { type := .pfloat, range := some ⟨0, none, true⟩, aliases := ["reg_alpha"] }),
    ("reg_alpha", { type := .pfloat, range := some ⟨0, none, true⟩, aliases := ["alpha"] }),
    ("tree_method",
      { type := .pstr,
        values := some [.str "auto", .str "exact", .str "approx", .str "hist",
          .str "gpu_hist"] }),
    ("scale_pos_weight", { type := .pfloat, range := some ⟨0, none, false⟩ }),
    ("max_leaves", { type := .pint, range := some ⟨0, none, true⟩ }),
    ("grow_policy", { type := .pstr, values := some [.str "depthwise", .str "lossguide"] }),
    ("objective",
      { type := .pstr,
        values := some [.str "binary:logistic", .str "binary:logitraw", .str "binary:hinge",
          .str "multi:softmax", .str "multi:softprob", .str "reg:linear", .str "reg:logistic",
          .str "reg:gamma", .str "reg:tweedie"] }),
    ("eval_metric",
      { type := .pstr,
        values := some [.str "rmse", .str "mae", .str "logloss", .str "error", .str "merror",
          .str "mlogloss", .str "auc", .str "aucpr", .str "map"] }),
    ("seed", { type := .pint, range := some ⟨0, none, true⟩ }),
    ("nthread", { type := .pint, range := some ⟨-1, none, true⟩ }),
    ("verbosity", { type := .pint, values := some [.int 0, .int 1, .int 2, .int 3] }),
    ("disable_default_eval_metric", { type := .pint, values := some [.int 0, .int 1] }),
    ("num_parallel_tree", { type := .pint, range := some ⟨1, none, true⟩ }) ]

def TUNABLE_PARAMS : List String :=
  [ "learning_rate", "eta", "alpha", "reg_alpha", "lambda", "reg_lambda",
    "max_depth", "min_child_weight", "subsample", "colsample_bytree" ]

def DEFAULT_PARAM_GRID : Grid :=
  [ ("max_depth", [.int 3, .int 4, .int 5]),
    ("learning_rate", [.float (1/100), .float (1/10)]),
    ("lambda", [.int 0, .float (1/2), .float 1]),
    ("subsample", [.float (4/5)]),
    ("colsample_bytree", [.float (4/5)]) ]

def lookupParam (name : String) : Option ParamInfo :=
  (VALID_XGBOOST_PARAMS.find? (fun p => p.1 = name)).map (·.2)

def validate_param_name (param_name : String) : Bool :=
  (lookupParam param_name).isSome ||
    VALID_XGBOOST_PARAMS.any (fun p => p.2.aliases.contains param_name)

/-- The alias fallback of `validate_param_value`: the info of the first table
entry listing `param_name` among its aliases. -/
def lookupParamByAlias (param_name : String) : Option ParamInfo :=
  (VALID_XGBOOST_PARAMS.find? (fun p => p.2.aliases.contains param_name)).map (·.2)

def typeMatches (value : PyVal) : PType → Bool
  | .pfloat => match value with | .float _ => true | _ => false
  | .pint => match value with | .int _ => true | _ => false
  | .pstr => match value with | .str _ => true | _ => false

/-- Numeric content of a value; range checks are only reached after the type
check has passed, so only ints and floats ever hit this. -/
def PyVal.toQ : PyVal → ℚ
  | .int i => (i : ℚ)
  | .float q => q
  | .str _ => 0

def validate_param_value (param_name : String) (value : PyVal) : Bool × String :=
  if !validate_param_name param_name then
    (false, param_name ++ " is not a valid XGBoost parameter")
  else
    match (lookupParam param_name).orElse (fun _ => lookupParamByAlias param_name) with
    | none => (false, "Could not find parameter info for " ++ param_name)
    | some param_info =>
      let typeOk :=
        if param_info.type = .pfloat then
          match value with | .int _ => true | .float _ => true | .str _ => false
        else typeMatches value param_info.type
      if !typeOk then (false, param_name ++ " has the wrong type")
      else
        let valuesOk := match param_info.values with
          | some vs => vs.contains value
          | none => true
        if !valuesOk then (false, param_name ++ " is not an allowed value")
        else
          let rangeOk := match param_info.range with
            | none => true
            | some r =>
              let q := value.toQ
              if r.inclusiveMin then
                ¬ (q < r.min || (match r.max with | some m => q > m | none => false))
              else
                ¬ (q ≤ r.min || (match r.max with | some m => q > m | none => false))
          if !rangeOk then (false, param_name ++ " is out of range")
          else (true, "")

/-- Grid entry values: the declared type is `List[Any]` but the validator
defends against a non-list value at runtime. -/
inductive GridVal : Type
  | pylist (l : List PyVal)
  | scalar (v : PyVal)
deriving DecidableEq

def isTunableOrAlias (param_name : String) : Bool :=
  TUNABLE_PARAMS.contains param_name ||
    TUNABLE_PARAMS.any (fun tunable_param =>
      match lookupParam tunable_param with
      | some param_info => param_info.aliases.contains param_name
      | none => false)

def validate_param_grid (param_grid : List (String × GridVal)) : Bool × List String :=
  let errors := param_grid.foldl (fun errors entry =>
    let param_name := entry.1
    if !isTunableOrAlias param_name then
      errors ++ [param_name ++ " is not a tunable parameter"]
    else
      match entry.2 with
      | .scalar _ => errors ++ [param_name ++ " values must be a list"]
      | .pylist values =>
        if values.length = 0 then
          errors ++ [param_name ++ " values list cannot be empty"]
        else
          errors ++ (values.filterMap (fun value =>
            let r := validate_param_value param_name value
            if r.1 then none else some r.2))) []
  (errors.length = 0, errors)

/-! ## python_api/models.py

`TrainRequest` and `TrainingResult` are pydantic `BaseModel`s.  Pydantic's
default configuration ignores unknown keyword arguments at construction time
and raises `AttributeError` when an undeclared attribute is read; both
behaviours are modelled by `pydanticConstruct` / `pydanticGetattr` over the
declared field-name list of the class.  `PyObj` stands for an arbitrary
runtime value held in a field. -/

structure TrainRequest : Type where
  model_name : String
  csv_filename : String
  target_column : String
  feature_columns : List String
  test_size : ℚ := 1/5
  cv_folds : ℕ := 3
  early_stopping_rounds : ℕ := 50
  objective : String := "binary:logistic"
  custom_param_grid : Option Grid := none
deriving DecidableEq

/-- Field names declared on `models.TrainingResult` (lines 53-62).  Note that
`cv_auc_std` is NOT among them. -/
def trainingResultFields : List String :=
  ["model", "best_params", "cv_auc", "best_n_estimators"]

/-- Pydantic construction with the default (`extra="ignore"`) configuration:
unknown keyword arguments are silently dropped. -/
def pydanticConstruct {PyObj : Type} (fields : List String)
    (kwargs : List (String × PyObj)) : List (String × PyObj) :=
  kwargs.filter (fun kv => fields.contains kv.1)

/-- Pydantic attribute read: a name that is not a declared field is not an
attribute of the instance (`AttributeError`, modelled as `none`). -/
def pydanticGetattr {PyObj : Type} (fields : List String)
    (inst : List (String × PyObj)) (name : String) : Option PyObj :=
  if fields.contains name then (inst.find? (fun kv => kv.1 = name)).map (·.2)
  else none

/-- The keyword arguments `train_and_tune_xgboost_model` passes to the
`TrainingResult` constructor (xgb_modeling.py lines 198-204), with the
model object omitted from the embedding (it is opaque state). -/
def trainingResultKwargs {PyObj : Type}
    (best_params cv_auc cv_auc_std best_n_estimators : PyObj) :
    List (String × PyObj) :=
  [("best_params", best_params), ("cv_auc", cv_auc), ("cv_auc_std", cv_auc_std),
   ("best_n_estimators", best_n_estimators)]

/-! ## python_api/xgb_modeling.py, `get_param_grid` (lines 135-141)

`if request.custom_param_grid:` is Python truthiness: both `None` and an
empty dict fall through to the default grid. -/

def get_param_grid (request : TrainRequest) : Grid :=
  match request.custom_param_grid with
  | some g => if g = [] then DEFAULT_PARAM_GRID else g
  | none => DEFAULT_PARAM_GRID

/-! ## python_api/modeling_utils.py, grid enumeration

`listProd` is `itertools.product` on a list of value lists: the first list
varies slowest and the last varies fastest. -/

def listProd {α : Type} : List (List α) → List (List α)
  | [] => [[]]
  | l :: ls => l.flatMap (fun x => (listProd ls).map (fun rest => x :: rest))

/-- `build_param_grid` (lines 126-131): names in dict-key order, one dict
per element of the cartesian product. -/
def build_param_grid (base_grid : Grid) : List Params :=
  let param_names := base_grid.map (·.1)
  let param_values := base_grid.map (·.2)
  (listProd param_values).map (fun values => param_names.zip values)

/-! ## python_api/modeling_utils.py, cross-validation and grid search

`xgb.cv` itself is external native code; it enters the embedding as an
oracle mapping (params, nfold, num_boost_round, early_stopping_rounds) to
the rows of the evaluation-history DataFrame it returns, each row giving
(test-auc-mean, test-auc-std).  Everything after that call is the
repository's own code and is embedded faithfully. -/

abbrev CvOracle := Params → ℕ → ℕ → ℕ → List (ℚ × ℚ)

/-- `run_cross_validation` (lines 152-185): take the last row of the cv
DataFrame; on an empty result fall back to (0.5, 0.0, num_rounds). -/
def run_cross_validation (xgbCv : CvOracle) (params : Params)
    (cv_folds num_rounds early_stopping_rounds : ℕ) : ℚ × ℚ × ℕ :=
  let cv_results := xgbCv params cv_folds num_rounds early_stopping_rounds
  match cv_results.getLast? with
  | some row => (row.1, row.2, cv_results.length)
  | none => (1/2, 0, num_rounds)

/-- The `cv_params` built at the top of the search loop (lines 344-346):
`{"objective": objective}` then `.update(params)`. -/
def cvParamsFor (objective : String) (params : Params) : Params :=
  dictUpdate [("objective", PyVal.str objective)] params

/-- One candidate's cross-validation outcome inside the search loop
(lines 348-350); the loop passes `500` as the round ceiling. -/
def candidateOutcome (xgbCv : CvOracle) (objective : String)
    (cv_folds early_stopping_rounds : ℕ) (params : Params) : ℚ × ℚ × ℕ :=
  run_cross_validation xgbCv (cvParamsFor objective params) cv_folds 500
    early_stopping_rounds

/-- Running-best state of `execute_hyperparameter_search`; `⊥ : WithBot ℚ`
models the initial `-np.inf`. -/
structure SearchState : Type where
  best_score : WithBot ℚ
  best_std : ℚ
  best_params : Params
  best_n_estimators : ℕ
deriving DecidableEq

def searchStep (xgbCv : CvOracle) (objective : String)
    (cv_folds early_stopping_rounds : ℕ) (st : SearchState) (params : Params) :
    SearchState :=
  let out := candidateOutcome xgbCv objective cv_folds early_stopping_rounds params
  if st.best_score < (out.1 : WithBot ℚ) then
    { best_score := (out.1 : WithBot ℚ), best_std := out.2.1,
      best_params := params, best_n_estimators := out.2.2 }
  else st

/-- `execute_hyperparameter_search` (lines 319-370): fold the strict-update
step over the enumerated candidates, starting from
(-inf, 0.0, {}, 100); returns (best_params, best_score, best_n_estimators,
best_std). -/
def execute_hyperparameter_search (xgbCv : CvOracle) (objective : String)
    (param_grid : Grid) (cv_folds early_stopping_rounds : ℕ) :
    Params × WithBot ℚ × ℕ × ℚ :=
  let param_combinations := build_param_grid param_grid
  let final := param_combinations.foldl
    (searchStep xgbCv objective cv_folds early_stopping_rounds)
    ⟨⊥, 0, [], 100⟩
  (final.best_params, final.best_score, final.best_n_estimators, final.best_std)

/-! ## python_api/preprocessing.py

A column carries its pandas dtype: numeric (`float/int`, cells possibly
NaN), object (strings, cells possibly NaN), or datetime (cells possibly
NaT, with the payload already in its canonical string form).  Missing cells
are `none`. -/

inductive ColumnData : Type
  | numeric (cells : List (Option ℚ))
  | categorical (cells : List (Option String))
  | datetime (cells : List (Option String))
deriving DecidableEq

def colLength : ColumnData → ℕ
  | .numeric cells => cells.length
  | .categorical cells => cells.length
  | .datetime cells => cells.length

/-- `DatetimeToString.transform` (lines 13-26): `astype(str)` on a
datetime64 column renders each cell as its string form and a missing cell
as the literal string "NaT"; other columns are untouched. -/
def datetimeToString : ColumnData → ColumnData
  | .datetime cells => .categorical (cells.map (fun c => some (c.getD "NaT")))
  | c => c

/-- Numeric pipeline (lines 60-64): `SimpleImputer(strategy="constant",
fill_value=-9999)`. -/
def numericTransform (cells : List (Option ℚ)) : List ℚ :=
  cells.map (fun c => c.getD (-9999))

/-- Categorical imputer (line 69): missing cells become the token
"missing". -/
def imputeCat (cells : List (Option String)) : List String :=
  cells.map (fun c => c.getD "missing")

/-- `OrdinalEncoder.fit`: the stored `categories_` for a column are
`numpy.unique` of its (imputed) values — the distinct values in ascending
sorted order.  The encoder in `_create_transformers` is built with
`max_categories=1000` (preprocessing.py line 75): once a column's
distinct-value count reaches that bound, sklearn collapses the infrequent
categories into a single shared code, and the codes are then no longer the
sorted distinct-value indices this definition yields.  That grouping regime
is not modelled; below the bound the encoder performs no grouping and this
definition is exact, so the fit-code theorem (`c4_fit_codes_sorted_order`)
carries an explicit distinct-count hypothesis restricting it to that
regime. -/
def fitCategories (vals : List String) : List String :=
  npUnique vals

/-- `OrdinalEncoder` encoding of one value against stored categories:
its index, with `handle_unknown="use_encoded_value", unknown_value=-1`
(lines 72-76) sending unknown values to -1. -/
def encodeCat (cats : List String) (v : String) : ℤ :=
  match cats.indexOf? v with
  | some i => (i : ℤ)
  | none => -1

/-- Categorical pipeline in fit-transform mode: impute, fit the encoder on
the imputed values, encode each of them; returns the stored categories
artifact together with the encoded column. -/
def categoricalFitTransform (cells : List (Option String)) :
    List String × List ℤ :=
  let vals := imputeCat cells
  let cats := fitCategories vals
  (cats, vals.map (encodeCat cats))

/-- Categorical pipeline in apply mode (`pipeline.transform`,
preprocess_data line 250): impute, then encode against the stored
categories without refitting. -/
def categoricalApply (cats : List String) (cells : List (Option String)) :
    List ℤ :=
  (imputeCat cells).map (encodeCat cats)

def isNumericCol : ColumnData → Bool
  | .numeric _ => true
  | _ => false

def isCategoricalCol : ColumnData → Bool
  | .categorical _ => true
  | _ => false

/-- Full fit-transform of a single column after datetime conversion; codes
are cast to the float matrix (`astype(np.float32)`, line 256). -/
def transformColumn : ColumnData → List ℚ
  | .numeric cells => numericTransform cells
  | .categorical cells => ((categoricalFitTransform cells).2).map (Int.cast : ℤ → ℚ)
  | .datetime cells =>
      ((categoricalFitTransform ((cells.map (fun c => some (c.getD "NaT"))))).2).map
        (Int.cast : ℤ → ℚ)

/-- `preprocess_data` in fit-transform mode, feature matrix part: run
`DatetimeToString`, partition columns into the numeric and categorical
transformer lists (`_detect_column_types` / `_create_transformers`), and
assemble the `ColumnTransformer` output, numeric block first, then the
categorical block — exactly the `all_columns` order the output DataFrame is
given (lines 253-256). -/
def preprocessFitTransform (cols : List (String × ColumnData)) :
    List (String × List ℚ) :=
  let converted := cols.map (fun nc => (nc.1, datetimeToString nc.2))
  let nums := converted.filter (fun nc => isNumericCol nc.2)
  let cats := converted.filter (fun nc => isCategoricalCol nc.2)
  nums.map (fun nc => (nc.1, transformColumn nc.2)) ++
    cats.map (fun nc => (nc.1, transformColumn nc.2))

/-! ## python_api/modeling_utils.py, `compute_lift_chart_data` (lines 225-249)

The binning is `pandas.qcut(column, 10, labels=False, duplicates="drop")`.
Its semantics (pandas `tile.py`): compute the 11 linearly interpolated
quantile edges of the column, collapse duplicate edges with `numpy.unique`,
assign each value `ids = edges.searchsorted(v, side="left")`, force
`ids = 1` where `v` equals the lowest edge (`include_lowest`), and mark a
row NaN when `ids` is 0 or equals the number of edges; the bin label is
`ids - 1`.  The raw quantile edges are nondecreasing, so applying
sort-then-dedup (`npUnique`) unconditionally agrees with pandas, which skips
the `unique` call only when it would be the identity. -/

/-- Linear-interpolation quantile of a sorted list at fractional position
`p` (numpy / pandas `interpolation="linear"`). -/
def interpQuantile (s : List ℚ) (p : ℚ) : ℚ :=
  let lo := (⌊p⌋).toNat
  let hi := (⌈p⌉).toNat
  s.getD lo 0 + (p - (lo : ℚ)) * (s.getD hi 0 - s.getD lo 0)

/-- The `q+1` quantile edges of a value list: positions `i * (n-1) / q`. -/
def quantileEdges (values : List ℚ) (q : ℕ) : List ℚ :=
  let s := values.insertionSort (· ≤ ·)
  let n := s.length
  (List.range (q + 1)).map
    (fun (i : ℕ) => interpQuantile s ((i : ℚ) * ((n : ℚ) - 1) / (q : ℚ)))

def qcutEdges (values : List ℚ) (q : ℕ) : List ℚ :=
  npUnique (quantileEdges values q)

/-- `numpy.searchsorted(edges, v, side="left")`: index of the first edge
`≥ v`, or the number of edges when there is none. -/
def searchsortedLeft (edges : List ℚ) (v : ℚ) : ℕ :=
  edges.findIdx (fun e => v ≤ e)

/-- The pandas `ids` value for one cell, after the `include_lowest`
correction. -/
def qcutId (edges : List ℚ) (v : ℚ) : ℕ :=
  if v = edges.headD 0 then 1 else searchsortedLeft edges v

/-- Bin label of one cell (`labels=False`); `none` is pandas NaN (the row
falls outside every surviving bin). -/
def qcutBinOf (edges : List ℚ) (v : ℚ) : Option ℕ :=
  let ids := qcutId edges v
  if ids = edges.length ∨ ids = 0 then none else some (ids - 1)

structure LiftBin : Type where
  bin : ℕ
  avg_prediction : ℚ
  actual_rate : ℚ
  count : ℕ
deriving DecidableEq

def listMean (l : List ℚ) : ℚ := l.sum / (l.length : ℚ)

instance : DecidableRel (α := (ℚ × ℚ)) (fun a b => a.1 ≤ b.1) :=
  fun a b => inferInstanceAs (Decidable (a.1 ≤ b.1))

/-- `compute_lift_chart_data`: pair each row's prediction with its label,
sort by prediction, bin with `qcut`, and for each of the 10 label values
keep the non-empty bins with their mean prediction, positive rate and row
count. -/
def compute_lift_chart_data (y_true y_pred_proba : List ℚ) (n_bins : ℕ := 10) :
    List LiftBin :=
  let rows := y_pred_proba.zip y_true
  let sortedRows := rows.insertionSort (fun a b => a.1 ≤ b.1)
  let edges := qcutEdges y_pred_proba n_bins
  let binned := sortedRows.map (fun r => (qcutBinOf edges r.1, r))
  (List.range n_bins).filterMap (fun bin_num =>
    let bin_data := binned.filter (fun br => br.1 = some bin_num)
    if 0 < bin_data.length then
      some { bin := bin_num + 1,
             avg_prediction := listMean (bin_data.map (fun br => br.2.1)),
             actual_rate := listMean (bin_data.map (fun br => br.2.2)),
             count := bin_data.length }
    else none)

def liftCountSum (bins : List LiftBin) : ℕ :=
  (bins.map (·.count)).sum

/-! ## python_api/xgb_modeling.py, `run_xgboost_training_flow` (lines
259-277), and python_api/mongo_utils.py, `cleanup_failed_project` (lines
276-308)

The orchestrator runs its three phase functions in sequence inside one
`try`; any exception triggers `cleanup_failed_project(project_id, str(e))`
— note: with the `stage` argument left at its default — and is then
re-raised.  Phases are abstracted as `Except` computations; the failure
document written to the store is `FailureRecord`. -/

structure FailureRecord : Type where
  status : String
  message : String
  stage : String
deriving DecidableEq

def cleanup_failed_project (error_message : String)
    (stage : String := "unknown") : FailureRecord :=
  { status := "failed", message := error_message, stage := stage }

def run_xgboost_training_flow {α β γ : Type}
    (prepare_training_data : Except String α)
    (train_and_tune_xgboost_model : α → Except String β)
    (process_and_save_results : α → β → Except String γ) :
    Except String γ × Option FailureRecord :=
  match prepare_training_data with
  | .error e => (.error e, some (cleanup_failed_project e))
  | .ok data_prep_result =>
    match train_and_tune_xgboost_model data_prep_result with
    | .error e => (.error e, some (cleanup_failed_project e))
    | .ok training_result =>
      match process_and_save_results data_prep_result training_result with
      | .error e => (.error e, some (cleanup_failed_project e))
      | .ok results => (.ok results, none)

/-! ## Spec-side definition for the refinement comparison of claim C4

The specification says fit-time category codes are assigned in first-seen
(insertion) order.  Modelled from the spec wording, for comparison against
the source-derived `fitCategories`. -/

def firstSeenCats (vals : List String) : List String :=
  vals.foldl (fun acc v => if v ∈ acc then acc else acc ++ [v]) []

def firstSeenCodes (vals : List String) : List ℤ :=
  vals.map (fun v =>
    match (firstSeenCats vals).indexOf? v with
    | some i => (i : ℤ)
    | none => -1)

/-! ## Lemmas on the grid enumeration -/

theorem length_listProd {α : Type} (ls : List (List α)) :
    (listProd ls).length = (ls.map List.length).prod := by
  induction ls with
  | nil => rfl
  | cons l ls ih =>
    simp only [listProd, List.length_flatMap, Function.comp_def, List.length_map,
      List.map_const', List.sum_replicate, smul_eq_mul, List.map_cons, List.prod_cons, ih]

theorem listProd_index {α : Type} (x : List α) (ls : List (List α)) (i r : ℕ)
    (hi : i < x.length) (hr : r < (listProd ls).length) :
    (listProd (x :: ls))[i * (listProd ls).length + r]? =
      some (x.get ⟨i, hi⟩ :: (listProd ls).get ⟨r, hr⟩) := by
  induction x generalizing i with
  | nil => exact absurd hi (by simp)
  | cons y xs ih =>
    cases i with
    | zero =>
      simp only [listProd, List.flatMap_cons, Nat.zero_mul, Nat.zero_add]
      rw [List.getElem?_append, if_pos (by simpa using hr)]
      simp [List.getElem?_map, List.getElem?_eq_getElem hr, List.get_eq_getElem]
    | succ i =>
      have hi' : i < xs.length := by simpa using hi
      simp only [listProd, List.flatMap_cons]
      have hlen : (List.map (fun rest => y :: rest) (listProd ls)).length =
          (listProd ls).length := by simp
      have hidx : (i + 1) * (listProd ls).length + r =
          (List.map (fun rest => y :: rest) (listProd ls)).length +
            (i * (listProd ls).length + r) := by
        rw [hlen]; ring
      rw [hidx, List.getElem?_append, if_neg (by omega)]
      have h2 : (List.map (fun rest => y :: rest) (listProd ls)).length +
          (i * (listProd ls).length + r) -
          (List.map (fun rest => y :: rest) (listProd ls)).length =
          i * (listProd ls).length + r := by omega
      rw [h2]
      have := ih i hi'
      simp only [listProd] at this
      simpa using this

/-! ## The running-best fold of the grid search -/

/-- The mean cv score a candidate receives inside the search loop. -/
def scoreOf (xgbCv : CvOracle) (objective : String)
    (cv_folds early_stopping_rounds : ℕ) (params : Params) : ℚ :=
  (candidateOutcome xgbCv objective cv_folds early_stopping_rounds params).1

theorem searchStep_foldl_best (xgbCv : CvOracle) (objective : String)
    (cv_folds early_stopping_rounds : ℕ) (l : List Params) (st : SearchState) :
    (l.foldl (searchStep xgbCv objective cv_folds early_stopping_rounds) st = st ∧
      ∀ p ∈ l, ((candidateOutcome xgbCv objective cv_folds early_stopping_rounds p).1 : WithBot ℚ)
        ≤ st.best_score) ∨
    (∃ (j : ℕ) (hj : j < l.length),
      l.foldl (searchStep xgbCv objective cv_folds early_stopping_rounds) st =
        { best_score :=
            ((candidateOutcome xgbCv objective cv_folds early_stopping_rounds (l.get ⟨j, hj⟩)).1 : WithBot ℚ),
          best_std := (candidateOutcome xgbCv objective cv_folds early_stopping_rounds (l.get ⟨j, hj⟩)).2.1,
          best_params := l.get ⟨j, hj⟩,
          best_n_estimators :=
            (candidateOutcome xgbCv objective cv_folds early_stopping_rounds (l.get ⟨j, hj⟩)).2.2 } ∧
      st.best_score <
        ((candidateOutcome xgbCv objective cv_folds early_stopping_rounds (l.get ⟨j, hj⟩)).1 : WithBot ℚ) ∧
      (∀ (i : ℕ) (hi : i < l.length),
        (candidateOutcome xgbCv objective cv_folds early_stopping_rounds (l.get ⟨i, hi⟩)).1 ≤
          (candidateOutcome xgbCv objective cv_folds early_stopping_rounds (l.get ⟨j, hj⟩)).1) ∧
       ∀ (i : ℕ) (hi : i < l.length), i < j →
        (candidateOutcome xgbCv objective cv_folds early_stopping_rounds (l.get ⟨i, hi⟩)).1 <
          (candidateOutcome xgbCv objective cv_folds early_stopping_rounds (l.get ⟨j, hj⟩)).1) := by
  induction l generalizing st with
  | nil => left; exact ⟨rfl, by simp⟩
  | cons p l ih =>
    set co := candidateOutcome xgbCv objective cv_folds early_stopping_rounds with hco
    rw [List.foldl_cons]
    by_cases h : st.best_score < ((co p).1 : WithBot ℚ)
    · have hstep : searchStep xgbCv objective cv_folds early_stopping_rounds st p =
        { best_score := ((co p).1 : WithBot ℚ), best_std := (co p).2.1,
          best_params := p, best_n_estimators := (co p).2.2 } := by
        simp only [searchStep, ← hco, if_pos h]
      rw [hstep]
      rcases ih _ with ⟨heq, hall⟩ | ⟨j, hj, heq, hgt, hmax, hfirst⟩
      · right
        refine ⟨0, by simp, by simpa using heq, by simpa using h, ?_, ?_⟩
        · intro i hi
          cases i with
          | zero => simp
          | succ i =>
            have hi' : i < l.length := by simpa using hi
            have := hall (l.get ⟨i, hi'⟩) (List.get_mem _ _ _)
            simp only [List.get_eq_getElem] at this ⊢
            simp only [List.getElem_cons_succ, List.getElem_cons_zero]
            exact_mod_cast this
        · intro i hi hlt; omega
      · right
        have hgt2 : ((co p).1 : WithBot ℚ) <
            ((co (l.get ⟨j, hj⟩)).1 : WithBot ℚ) := hgt
        refine ⟨j + 1, by simpa using hj, by simpa using heq, ?_, ?_, ?_⟩
        · exact lt_trans h hgt2
        · intro i hi
          cases i with
          | zero =>
            simp only [List.get_eq_getElem, List.getElem_cons_zero, List.getElem_cons_succ]
            exact le_of_lt (WithBot.coe_lt_coe.mp hgt2)
          | succ i =>
            have hi' : i < l.length := by simpa using hi
            simpa using hmax i hi'
        · intro i hi hlt
          cases i with
          | zero =>
            simp only [List.get_eq_getElem, List.getElem_cons_zero, List.getElem_cons_succ]
            exact WithBot.coe_lt_coe.mp hgt2
          | succ i =>
            have hi' : i < l.length := by simpa using hi
            have : i < j := by omega
            simpa using hfirst i hi' this
    · have hstep : searchStep xgbCv objective cv_folds early_stopping_rounds st p = st := by
        simp only [searchStep, ← hco, if_neg h]
      rw [hstep]
      have hle : ((co p).1 : WithBot ℚ) ≤ st.best_score := not_lt.mp h
      rcases ih st with ⟨heq, hall⟩ | ⟨j, hj, heq, hgt, hmax, hfirst⟩
      · left
        refine ⟨heq, ?_⟩
        intro q hq
        rcases List.mem_cons.mp hq with hq | hq
        · subst hq; exact hle
        · exact hall q hq
      · right
        refine ⟨j + 1, by simpa using hj, by simpa using heq, ?_, ?_, ?_⟩
        · exact hgt
        · intro i hi
          cases i with
          | zero =>
            have : ((co p).1 : WithBot ℚ) < ((co (l.get ⟨j, hj⟩)).1 : WithBot ℚ) :=
              lt_of_le_of_lt hle hgt
            simp only [List.get_eq_getElem, List.getElem_cons_zero, List.getElem_cons_succ]
            exact le_of_lt (WithBot.coe_lt_coe.mp this)
          | succ i =>
            have hi' : i < l.length := by simpa using hi
            simpa using hmax i hi'
        · intro i hi hlt
          cases i with
          | zero =>
            have : ((co p).1 : WithBot ℚ) < ((co (l.get ⟨j, hj⟩)).1 : WithBot ℚ) :=
              lt_of_le_of_lt hle hgt
            simp only [List.get_eq_getElem, List.getElem_cons_zero, List.getElem_cons_succ]
            exact WithBot.coe_lt_coe.mp this
          | succ i =>
            have hi' : i < l.length := by simpa using hi
            have : i < j := by omega
            simpa using hfirst i hi' this

/-! ## Claim theorems -/

/-- C1: For every parameter grid (with a non-empty candidate enumeration,
i.e. no empty value list), the Grid Search Tuner returns the candidate whose
mean cross-validation score is maximal among all enumerated candidates, and
every earlier-enumerated candidate scores strictly lower — so the selected
candidate is the first one attaining the maximum, ties keep the
earlier-enumerated candidate, and the running best is never overwritten by
an equal score. -/
theorem c1_tuner_selects_first_strict_best (xgbCv : CvOracle) (objective : String)
    (cv_folds early_stopping_rounds : ℕ) (param_grid : Grid)
    (h : build_param_grid param_grid ≠ []) :
    ∃ (j : ℕ) (hj : j < (build_param_grid param_grid).length),
      (execute_hyperparameter_search xgbCv objective param_grid cv_folds
          early_stopping_rounds).1 =
        (build_param_grid param_grid).get ⟨j, hj⟩ ∧
      (execute_hyperparameter_search xgbCv objective param_grid cv_folds
          early_stopping_rounds).2.1 =
        ((scoreOf xgbCv objective cv_folds early_stopping_rounds
          ((build_param_grid param_grid).get ⟨j, hj⟩) : ℚ) : WithBot ℚ) ∧
      (∀ (i : ℕ) (hi : i < (build_param_grid param_grid).length),
        scoreOf xgbCv objective cv_folds early_stopping_rounds
            ((build_param_grid param_grid).get ⟨i, hi⟩) ≤
          scoreOf xgbCv objective cv_folds early_stopping_rounds
            ((build_param_grid param_grid).get ⟨j, hj⟩)) ∧
      (∀ (i : ℕ) (hi : i < (build_param_grid param_grid).length), i < j →
        scoreOf xgbCv objective cv_folds early_stopping_rounds
            ((build_param_grid param_grid).get ⟨i, hi⟩) <
          scoreOf xgbCv objective cv_folds early_stopping_rounds
            ((build_param_grid param_grid).get ⟨j, hj⟩)) := by
  rcases searchStep_foldl_best xgbCv objective cv_folds early_stopping_rounds
      (build_param_grid param_grid) ⟨⊥, 0, [], 100⟩ with
    ⟨heq, hall⟩ | ⟨j, hj, heq, _, hmax, hfirst⟩
  · rcases List.exists_mem_of_ne_nil _ h with ⟨p, hp⟩
    exact absurd (hall p hp) (by simp)
  · refine ⟨j, hj, ?_, ?_, hmax, hfirst⟩
    · simp only [execute_hyperparameter_search, heq]
    · simp only [execute_hyperparameter_search, heq, scoreOf]

/-- Concrete two-candidate grid used by the C1 witness. -/
def c1grid : Grid := [("max_depth", [.int 3, .int 4])]

/-- Concrete cv oracle for the C1 witness: every candidate receives the same
one-row history, so the scores tie and the first candidate must win. -/
def c1oracle : CvOracle := fun _ _ _ _ => [(7/10, 1/100)]

theorem c1_tuner_selects_first_strict_best_witness :
    build_param_grid c1grid ≠ [] ∧
    (∃ (j : ℕ) (hj : j < (build_param_grid c1grid).length),
      (execute_hyperparameter_search c1oracle "binary:logistic" c1grid 3 50).1 =
        (build_param_grid c1grid).get ⟨j, hj⟩ ∧
      (execute_hyperparameter_search c1oracle "binary:logistic" c1grid 3 50).2.1 =
        ((scoreOf c1oracle "binary:logistic" 3 50
          ((build_param_grid c1grid).get ⟨j, hj⟩) : ℚ) : WithBot ℚ) ∧
      (∀ (i : ℕ) (hi : i < (build_param_grid c1grid).length),
        scoreOf c1oracle "binary:logistic" 3 50 ((build_param_grid c1grid).get ⟨i, hi⟩) ≤
          scoreOf c1oracle "binary:logistic" 3 50 ((build_param_grid c1grid).get ⟨j, hj⟩)) ∧
      (∀ (i : ℕ) (hi : i < (build_param_grid c1grid).length), i < j →
        scoreOf c1oracle "binary:logistic" 3 50 ((build_param_grid c1grid).get ⟨i, hi⟩) <
          scoreOf c1oracle "binary:logistic" 3 50 ((build_param_grid c1grid).get ⟨j, hj⟩))) :=
  ⟨by decide, c1_tuner_selects_first_strict_best c1oracle "binary:logistic" 3 50 c1grid (by decide)⟩

/-- C2: the Tuner enumerates exactly the cartesian product of the grid's
value lists: the candidate count is the product of the value-list lengths,
the empty grid yields exactly the one empty candidate (the base parameters
alone), and the enumeration is in product order with the right-most key
varying fastest — candidate number `i * |rest| + r` pairs the `i`-th value
of the first key with the `r`-th candidate of the remaining keys. -/
theorem c2_grid_enumeration_product (param_grid : Grid) :
    (build_param_grid param_grid).length =
      (param_grid.map (fun kv => kv.2.length)).prod ∧
    build_param_grid ([] : Grid) = [[]] ∧
    (∀ (x : List PyVal) (ls : List (List PyVal)) (i r : ℕ)
      (hi : i < x.length) (hr : r < (listProd ls).length),
      (listProd (x :: ls))[i * (listProd ls).length + r]? =
        some (x.get ⟨i, hi⟩ :: (listProd ls).get ⟨r, hr⟩)) := by
  refine ⟨?_, rfl, fun x ls i r hi hr => listProd_index x ls i r hi hr⟩
  simp only [build_param_grid, List.length_map, length_listProd, List.map_map,
    Function.comp_def]

theorem c2_grid_enumeration_product_witness :
    (1 < ([PyVal.int 1, PyVal.int 2] : List PyVal).length) ∧
    (0 < (listProd [[PyVal.int 10]]).length) ∧
    (build_param_grid DEFAULT_PARAM_GRID).length =
      (DEFAULT_PARAM_GRID.map (fun kv => kv.2.length)).prod ∧
    (listProd [[PyVal.int 1, PyVal.int 2],
        [PyVal.int 10]])[1 * (listProd [[PyVal.int 10]]).length + 0]? =
      some (([PyVal.int 1, PyVal.int 2] : List PyVal).get ⟨1, by decide⟩ ::
        (listProd [[PyVal.int 10]]).get ⟨0, by decide⟩) :=
  ⟨by decide, by decide, (c2_grid_enumeration_product DEFAULT_PARAM_GRID).1,
    (c2_grid_enumeration_product []).2.2 [PyVal.int 1, PyVal.int 2] [[PyVal.int 10]]
      1 0 (by decide) (by decide)⟩

/-- Concrete training request with a custom grid keyed by "objective",
used by the C6 theorem. -/
def c6request : TrainRequest :=
  { model_name := "m", csv_filename := "d.csv", target_column := "y",
    feature_columns := ["a"],
    custom_param_grid := some [("objective", [.str "binary:logistic"])] }

/-- Concrete cv oracle under which the C6 grid is run to completion. -/
def c6oracle : CvOracle := fun _ _ _ _ => [(3/5, 0)]

/-- C6: exhibit of the validation gap.  `validate_param_grid` does reject a
grid keyed by the non-tunable name "objective" (as the claim expects), but
the training path never invokes it: `get_param_grid` hands the custom grid
through unchanged, `build_param_grid` enumerates its one candidate, and
`execute_hyperparameter_search` runs that candidate to completion — no
`InvalidParameterGridError` (which exists nowhere in the code base) is ever
raised before training. -/
theorem c6_invalid_grid_not_rejected_before_training :
    (validate_param_grid [("objective", GridVal.pylist [PyVal.str "binary:logistic"])]).1
      = false ∧
    get_param_grid c6request = [("objective", [PyVal.str "binary:logistic"])] ∧
    (build_param_grid [("objective", [PyVal.str "binary:logistic"])]).length = 1 ∧
    (execute_hyperparameter_search c6oracle "binary:logistic"
        [("objective", [PyVal.str "binary:logistic"])] 3 50).1 =
      [("objective", PyVal.str "binary:logistic")] := by
  refine ⟨by decide, by decide, by decide, by decide⟩

/-- C7 (amended): on any unhandled phase error the orchestrator writes a
"failed" record carrying the original error message and re-raises the same
error — but the stage recorded is always the constant "unknown", because
`run_xgboost_training_flow` calls `cleanup_failed_project` without its
`stage` argument; on success no failure record is written. -/
theorem c7_failure_records_unknown_stage {α β γ : Type} (p1 : Except String α)
    (p2 : α → Except String β) (p3 : α → β → Except String γ) :
    (∀ e, (run_xgboost_training_flow p1 p2 p3).1 = .error e →
      (run_xgboost_training_flow p1 p2 p3).2 =
        some { status := "failed", message := e, stage := "unknown" }) ∧
    (∀ c, (run_xgboost_training_flow p1 p2 p3).1 = .ok c →
      (run_xgboost_training_flow p1 p2 p3).2 = none) := by
  cases p1 with
  | error e => simp [run_xgboost_training_flow, cleanup_failed_project]
  | ok a =>
    cases h2 : p2 a with
    | error e => simp [run_xgboost_training_flow, cleanup_failed_project, h2]
    | ok b =>
      cases h3 : p3 a b with
      | error e => simp [run_xgboost_training_flow, cleanup_failed_project, h2, h3]
      | ok c => simp [run_xgboost_training_flow, cleanup_failed_project, h2, h3]

/-- C7 counterexample: a run whose second phase (tuning) raises "boom" is
recorded with stage "unknown", not with the name of the phase at which the
error occurred. -/
theorem c7_stage_not_phase_name_counterexample :
    (run_xgboost_training_flow (Except.ok (0 : ℕ))
        (fun _ => (Except.error "boom" : Except String ℕ))
        (fun _ _ => Except.ok (0 : ℕ))).2 =
      some { status := "failed", message := "boom", stage := "unknown" } ∧
    "unknown" ≠ "tuning" := ⟨rfl, by decide⟩

theorem c7_failure_records_unknown_stage_witness :
    (run_xgboost_training_flow (Except.ok (0 : ℕ))
        (fun _ => (Except.error "mid-flight failure" : Except String ℕ))
        (fun _ _ => Except.ok (0 : ℕ))).1 = .error "mid-flight failure" ∧
    (run_xgboost_training_flow (Except.ok (0 : ℕ))
        (fun _ => (Except.error "mid-flight failure" : Except String ℕ))
        (fun _ _ => Except.ok (0 : ℕ))).2 =
      some { status := "failed", message := "mid-flight failure", stage := "unknown" } :=
  ⟨rfl, (c7_failure_records_unknown_stage (Except.ok (0 : ℕ))
      (fun _ => (Except.error "mid-flight failure" : Except String ℕ))
      (fun _ _ => Except.ok (0 : ℕ))).1 "mid-flight failure" rfl⟩

/-- C8: exhibit of the dropped standard deviation.  The tuner does return
the best candidate's score standard deviation (fourth component of
`execute_hyperparameter_search`), and `train_and_tune_xgboost_model` passes
it as the `cv_auc_std` keyword to the `TrainingResult` constructor — but
`models.TrainingResult` declares no such field, so pydantic drops the
argument and the later attribute read in `process_and_save_results`
(`training_result.cv_auc_std`, line 246) finds no attribute: the value can
never reach the persisted `cv_auc_std` field. -/
theorem c8_training_result_drops_cv_auc_std {PyObj : Type}
    (best_params cv_auc cv_auc_std best_n_estimators : PyObj) :
    pydanticGetattr trainingResultFields
      (pydanticConstruct trainingResultFields
        (trainingResultKwargs best_params cv_auc cv_auc_std best_n_estimators))
      "cv_auc_std" = none := rfl

/-- C10: a candidate whose cross-validation produces an empty
evaluation-history is scored inside the tuner with mean 0.5, standard
deviation 0.0 and optimal round count equal to the round ceiling the tuner
passes (500), without raising; in general `run_cross_validation` maps an
empty cv result to (0.5, 0.0, num_rounds). -/
theorem c10_empty_cv_scored_half (xgbCv : CvOracle) (objective : String)
    (cv_folds early_stopping_rounds : ℕ) (params : Params)
    (h : xgbCv (cvParamsFor objective params) cv_folds 500 early_stopping_rounds = []) :
    candidateOutcome xgbCv objective cv_folds early_stopping_rounds params =
      (1/2, 0, 500) ∧
    (∀ (ps : Params) (folds num_rounds es : ℕ), xgbCv ps folds num_rounds es = [] →
      run_cross_validation xgbCv ps folds num_rounds es = (1/2, 0, num_rounds)) := by
  constructor
  · simp [candidateOutcome, run_cross_validation, h]
  · intro ps folds num_rounds es he
    simp [run_cross_validation, he]

/-- Concrete always-empty cv oracle for the C10 witness. -/
def c10oracle : CvOracle := fun _ _ _ _ => []

theorem c10_empty_cv_scored_half_witness :
    c10oracle (cvParamsFor "binary:logistic" [("max_depth", PyVal.int 3)]) 3 500 50 = [] ∧
    candidateOutcome c10oracle "binary:logistic" 3 50 [("max_depth", PyVal.int 3)] =
      (1/2, 0, 500) :=
  ⟨rfl, (c10_empty_cv_scored_half c10oracle "binary:logistic" 3 50
    [("max_depth", PyVal.int 3)] rfl).1⟩

/-! ## Lemmas on the feature transform pipeline -/

theorem length_transformColumn (c : ColumnData) :
    (transformColumn c).length = colLength c := by
  cases c with
  | numeric cells => simp [transformColumn, numericTransform, colLength]
  | categorical cells =>
    simp only [transformColumn, categoricalFitTransform, colLength, List.length_map, imputeCat]
  | datetime cells =>
    simp only [transformColumn, categoricalFitTransform, colLength, List.length_map, imputeCat]

theorem colLength_datetimeToString (c : ColumnData) :
    colLength (datetimeToString c) = colLength c := by
  cases c <;> simp [datetimeToString, colLength]

/-- After datetime conversion every column is exactly one of numeric or
categorical. -/
theorem cat_eq_not_num_after_convert (c : ColumnData) :
    isCategoricalCol (datetimeToString c) = !isNumericCol (datetimeToString c) := by
  cases c <;> rfl

/-- C3: for every dataset whose feature columns (any mix of numeric,
categorical and datetime, any pattern of missing cells) share row count `n`,
the fit-transform output has exactly one (numeric, by type `List ℚ` — hence
no missing cells) column per input feature column — the output column names
are a permutation of the input ones — and every output column again has `n`
rows. -/
theorem c3_transform_total_shape (cols : List (String × ColumnData)) (n : ℕ)
    (h : ∀ c ∈ cols, colLength c.2 = n) :
    (preprocessFitTransform cols).length = cols.length ∧
    ((preprocessFitTransform cols).map (·.1)).Perm (cols.map (·.1)) ∧
    (∀ e ∈ preprocessFitTransform cols, e.2.length = n) := by
  have hpart : ((cols.map (fun nc => (nc.1, datetimeToString nc.2))).filter
        (fun nc => isNumericCol nc.2) ++
      (cols.map (fun nc => (nc.1, datetimeToString nc.2))).filter
        (fun nc => isCategoricalCol nc.2)).Perm
      (cols.map (fun nc => (nc.1, datetimeToString nc.2))) := by
    have hcongr : (cols.map (fun nc => (nc.1, datetimeToString nc.2))).filter
        (fun nc => isCategoricalCol nc.2) =
        (cols.map (fun nc => (nc.1, datetimeToString nc.2))).filter
        (fun nc => !isNumericCol nc.2) := by
      apply List.filter_congr
      intro x hx
      rcases List.mem_map.mp hx with ⟨nc, _, rfl⟩
      exact cat_eq_not_num_after_convert nc.2
    rw [hcongr]
    exact List.filter_append_perm _ _
  refine ⟨?_, ?_, ?_⟩
  · have hlen := hpart.length_eq
    simp only [List.length_append] at hlen
    simp only [preprocessFitTransform, List.length_append, List.length_map]
    simpa using hlen
  · simp only [preprocessFitTransform, List.map_append, List.map_map]
    have : ((cols.map (fun nc => (nc.1, datetimeToString nc.2))).filter
          (fun nc => isNumericCol nc.2) ++
        (cols.map (fun nc => (nc.1, datetimeToString nc.2))).filter
          (fun nc => isCategoricalCol nc.2)).map (·.1) |>.Perm
        ((cols.map (fun nc => (nc.1, datetimeToString nc.2))).map (·.1)) :=
      hpart.map _
    simp only [List.map_append, List.map_map] at this
    convert this using 2
  · intro e he
    simp only [preprocessFitTransform, List.mem_append, List.mem_map] at he
    rcases he with ⟨nc, hnc, rfl⟩ | ⟨nc, hnc, rfl⟩ <;>
    · rcases List.mem_filter.mp hnc with ⟨hmem, _⟩
      rcases List.mem_map.mp hmem with ⟨nc0, hnc0, rfl⟩
      simp only [length_transformColumn, colLength_datetimeToString]
      exact h nc0 hnc0

/-- Concrete three-column dataset (numeric, categorical and datetime, each
with a missing cell) used by the C3 witness. -/
def c3cols : List (String × ColumnData) :=
  [ ("age", .numeric [some 31, none, some 45]),
    ("city", .categorical [some "paris", none, some "lyon"]),
    ("signup", .datetime [some "2021-01-01", some "2021-06-01", none]) ]

theorem c3_transform_total_shape_witness :
    (∀ c ∈ c3cols, colLength c.2 = 3) ∧
    (preprocessFitTransform c3cols).length = c3cols.length ∧
    ((preprocessFitTransform c3cols).map (·.1)).Perm (c3cols.map (·.1)) ∧
    (∀ e ∈ preprocessFitTransform c3cols, e.2.length = 3) :=
  ⟨by decide, c3_transform_total_shape c3cols 3 (by decide)⟩

/-! ## Lemmas on the ordinal encoder -/

theorem encodeCat_nonneg_of_mem (cats : List String) (v : String) (hv : v ∈ cats) :
    0 ≤ encodeCat cats v := by
  cases h : cats.indexOf? v with
  | some k => simp [encodeCat, h]
  | none =>
    have := List.indexOf?_eq_none_iff.mp h v hv
    simp at this

theorem encodeCat_unknown (cats : List String) (v : String) (hv : v ∉ cats) :
    encodeCat cats v = -1 := by
  have h : cats.indexOf? v = none := by
    rw [List.indexOf?_eq_none_iff]
    intro x hx
    simp only [beq_iff_eq]
    intro hxv
    exact hv (hxv ▸ hx)
  simp [encodeCat, h]

theorem mem_of_getElem?_imputeCat (cells : List (Option String)) (i : ℕ) (v : String)
    (h : (imputeCat cells)[i]? = some v) : v ∈ imputeCat cells := by
  rcases List.getElem?_eq_some.mp h with ⟨hlt, rfl⟩
  exact List.getElem_mem _

/-- C4 (amended): at fit time, for a categorical column whose
distinct-value count stays below the encoder's `max_categories=1000` bound
(so sklearn performs no infrequent-category grouping — the hypothesis
counts the distinct imputed values via `fitCategories`), the stored
category list is the strictly sorted (ascending lexicographic) list of the
column's distinct imputed values — sorted order, not first-seen order — and
every cell's code is the non-negative index of its value in that sorted
list. -/
theorem c4_fit_codes_sorted_order (cells : List (Option String))
    (_hbound : (fitCategories (imputeCat cells)).length < 1000) :
    ((categoricalFitTransform cells).1).Sorted (· < ·) ∧
    (∀ v, v ∈ (categoricalFitTransform cells).1 ↔ v ∈ imputeCat cells) ∧
    (∀ (i : ℕ) (v : String), (imputeCat cells)[i]? = some v →
      ((categoricalFitTransform cells).2)[i]? =
        some (encodeCat (categoricalFitTransform cells).1 v) ∧
      0 ≤ encodeCat (categoricalFitTransform cells).1 v) := by
  refine ⟨npUnique_sorted_strict _, fun v => mem_npUnique _ _, ?_⟩
  intro i v hv
  constructor
  · simp only [categoricalFitTransform, List.getElem?_map, hv, Option.map_some']
  · apply encodeCat_nonneg_of_mem
    rw [categoricalFitTransform]
    exact (mem_npUnique _ _).mpr (mem_of_getElem?_imputeCat cells i v hv)

/-- C4 counterexample: on the column ["b", "a"] the fitted codes are
[1, 0] (sorted-order categories ["a", "b"]), while assignment in first-seen
(insertion) order — `firstSeenCodes`, modelled from the spec wording — would
give [0, 1]; the two disagree, refuting the first-seen-order claim. -/
theorem c4_first_seen_order_counterexample :
    categoricalFitTransform [some "b", some "a"] = (["a", "b"], [1, 0]) ∧
    firstSeenCodes (imputeCat [some "b", some "a"]) = [0, 1] ∧
    (categoricalFitTransform [some "b", some "a"]).2 ≠
      firstSeenCodes (imputeCat [some "b", some "a"]) := by
  refine ⟨by decide, by decide, by decide⟩

theorem c4_fit_codes_sorted_order_witness :
    ((fitCategories (imputeCat [some "b", none, some "a"])).length < 1000) ∧
    ((imputeCat [some "b", none, some "a"])[1]? = some "missing") ∧
    ((categoricalFitTransform [some "b", none, some "a"]).2)[1]? =
      some (encodeCat (categoricalFitTransform [some "b", none, some "a"]).1 "missing") ∧
    0 ≤ encodeCat (categoricalFitTransform [some "b", none, some "a"]).1 "missing" :=
  ⟨by decide, by decide,
    ((c4_fit_codes_sorted_order [some "b", none, some "a"] (by decide)).2.2
      1 "missing" (by decide)).1,
    ((c4_fit_codes_sorted_order [some "b", none, some "a"] (by decide)).2.2
      1 "missing" (by decide)).2⟩

/-- C5: with the stored fit artifact applied in apply mode (no refit), a
categorical value seen at fit time receives exactly the code it received at
fit time (apply row `j` equals fit row `i` whenever both rows hold the same
imputed value), and a value never seen at fit time is encoded as the
reserved unknown code -1. -/
theorem c5_apply_mode_fidelity (cells newCells : List (Option String)) :
    (∀ (i j : ℕ) (v : String),
      (imputeCat cells)[i]? = some v → (imputeCat newCells)[j]? = some v →
      (categoricalApply (categoricalFitTransform cells).1 newCells)[j]? =
        ((categoricalFitTransform cells).2)[i]?) ∧
    (∀ (j : ℕ) (v : String), (imputeCat newCells)[j]? = some v →
      v ∉ imputeCat cells →
      (categoricalApply (categoricalFitTransform cells).1 newCells)[j]? =
        some (-1 : ℤ)) := by
  constructor
  · intro i j v hi hj
    simp only [categoricalApply, categoricalFitTransform, List.getElem?_map, hi, hj,
      Option.map_some']
  · intro j v hj hv
    have hnot : v ∉ (categoricalFitTransform cells).1 := by
      rw [categoricalFitTransform]
      exact fun hmem => hv ((mem_npUnique _ _).mp hmem)
    simp only [categoricalApply, List.getElem?_map, hj, Option.map_some',
      encodeCat_unknown _ _ hnot]

theorem c5_apply_mode_fidelity_witness :
    ((imputeCat [some "paris", none])[0]? = some "paris") ∧
    ((imputeCat [some "paris", some "tokyo"])[0]? = some "paris") ∧
    (categoricalApply (categoricalFitTransform [some "paris", none]).1
        [some "paris", some "tokyo"])[0]? =
      ((categoricalFitTransform [some "paris", none]).2)[0]? ∧
    (categoricalApply (categoricalFitTransform [some "paris", none]).1
        [some "paris", some "tokyo"])[1]? = some (-1 : ℤ) :=
  ⟨by decide, by decide,
    (c5_apply_mode_fidelity [some "paris", none] [some "paris", some "tokyo"]).1
      0 0 "paris" (by decide) (by decide),
    (c5_apply_mode_fidelity [some "paris", none] [some "paris", some "tokyo"]).2
      1 "tokyo" (by decide) (by decide)⟩

/-! ## Lemmas on the lift chart binning -/

theorem sum_map_add_nat {α : Type} (l : List α) (f g : α → ℕ) :
    (l.map (fun b => f b + g b)).sum = (l.map f).sum + (l.map g).sum := by
  induction l with
  | nil => simp
  | cons x t ih => simp [ih]; omega

theorem sum_ite_eq_zero_of_not_mem (b0 : ℕ) (l : List ℕ) (h : b0 ∉ l) :
    (l.map (fun b => if b0 = b then 1 else 0)).sum = 0 := by
  induction l with
  | nil => simp
  | cons c t ih =>
    have hbc : b0 ≠ c := fun e => h (e ▸ List.mem_cons_self _ _)
    have ht : b0 ∉ t := fun m => h (List.mem_cons_of_mem _ m)
    simp [hbc, ih ht]

theorem sum_ite_le_one (b0 : ℕ) (l : List ℕ) (hl : l.Nodup) :
    (l.map (fun b => if b0 = b then 1 else 0)).sum ≤ 1 := by
  induction l with
  | nil => simp
  | cons c t ih =>
    rcases List.nodup_cons.mp hl with ⟨hc, ht⟩
    by_cases hbc : b0 = c
    · subst hbc
      simp [sum_ite_eq_zero_of_not_mem b0 t hc]
    · simp only [List.map_cons, List.sum_cons, if_neg hbc, Nat.zero_add]
      exact ih ht

theorem sum_key_ite_le_one {α : Type} (key : α → Option ℕ) (x : α) (l : List ℕ)
    (hl : l.Nodup) :
    (l.map (fun b => if key x = some b then 1 else 0)).sum ≤ 1 := by
  cases hk : key x with
  | none => simp
  | some b0 =>
    simp only [Option.some.injEq]
    exact sum_ite_le_one b0 l hl

theorem sum_filter_counts_le {α : Type} (key : α → Option ℕ) (l : List ℕ)
    (hl : l.Nodup) (rows : List α) :
    (l.map (fun b => (rows.filter (fun r => key r = some b)).length)).sum ≤
      rows.length := by
  induction rows with
  | nil => simp
  | cons x rows ih =>
    have hstep : (l.map (fun b =>
        ((x :: rows).filter (fun r => key r = some b)).length)).sum =
        (l.map (fun b => if key x = some b then 1 else 0)).sum +
        (l.map (fun b => (rows.filter (fun r => key r = some b)).length)).sum := by
      rw [← sum_map_add_nat]
      apply congrArg
      apply List.map_congr_left
      intro b _
      by_cases hx : key x = some b
      · simp [List.filter_cons, hx, Nat.add_comm]
      · simp [List.filter_cons, hx]
    rw [hstep]
    have h1 := sum_key_ite_le_one key x l hl
    have h2 := ih
    simp only [List.length_cons]
    omega

theorem liftCountSum_filterMap (l : List ℕ) (binned : List (Option ℕ × (ℚ × ℚ))) :
    liftCountSum (l.filterMap (fun bin_num =>
      let bin_data := binned.filter (fun br => br.1 = some bin_num)
      if 0 < bin_data.length then
        some { bin := bin_num + 1,
               avg_prediction := listMean (bin_data.map (fun br => br.2.1)),
               actual_rate := listMean (bin_data.map (fun br => br.2.2)),
               count := bin_data.length }
      else none)) =
    (l.map (fun bin_num =>
      (binned.filter (fun br => br.1 = some bin_num)).length)).sum := by
  induction l with
  | nil => rfl
  | cons b t ih =>
    by_cases hb : 0 < (binned.filter (fun br => br.1 = some b)).length
    · simp only [List.filterMap_cons, List.map_cons, List.sum_cons, if_pos hb]
      simp only [liftCountSum, List.map_cons, List.sum_cons] at ih ⊢
      rw [ih]
    · simp only [List.filterMap_cons, List.map_cons, List.sum_cons, if_neg hb]
      simp only [liftCountSum] at ih ⊢
      rw [ih]
      omega

theorem sorted_getD_mono (s : List ℚ) (hs : s.Sorted (· ≤ ·)) (i j : ℕ)
    (hij : i ≤ j) (hj : j < s.length) : s.getD i 0 ≤ s.getD j 0 := by
  have hi : i < s.length := lt_of_le_of_lt hij hj
  rw [List.getD_eq_getElem s 0 hi, List.getD_eq_getElem s 0 hj]
  exact hs.rel_get_of_le (a := ⟨i, hi⟩) (b := ⟨j, hj⟩) hij

theorem interpQuantile_ge_head (s : List ℚ) (hs : s.Sorted (· ≤ ·))
    (hn : s ≠ []) (p : ℚ) (hp0 : 0 ≤ p) (hpn : p ≤ (s.length : ℚ) - 1) :
    s.getD 0 0 ≤ interpQuantile s p := by
  have h1 : 1 ≤ s.length := List.length_pos.mpr hn
  have hfl0 : (0 : ℤ) ≤ ⌊p⌋ := Int.le_floor.mpr (by exact_mod_cast hp0)
  have hlohi : (⌊p⌋).toNat ≤ (⌈p⌉).toNat :=
    Int.toNat_le_toNat (Int.floor_le_ceil p)
  have hceil : ⌈p⌉ ≤ (s.length : ℤ) - 1 := by
    apply Int.ceil_le.mpr
    push_cast
    exact hpn
  have hhi : (⌈p⌉).toNat < s.length := by omega
  have hmono : s.getD (⌊p⌋).toNat 0 ≤ s.getD (⌈p⌉).toNat 0 :=
    sorted_getD_mono s hs _ _ hlohi hhi
  have hlo0 : s.getD 0 0 ≤ s.getD (⌊p⌋).toNat 0 :=
    sorted_getD_mono s hs 0 _ (Nat.zero_le _) (lt_of_le_of_lt hlohi hhi)
  have hplo : ((⌊p⌋).toNat : ℚ) ≤ p := by
    have h2 : (((⌊p⌋).toNat : ℤ) : ℚ) ≤ p := by
      rw [Int.toNat_of_nonneg hfl0]
      exact Int.floor_le p
    exact_mod_cast h2
  have hprod : 0 ≤ (p - ((⌊p⌋).toNat : ℚ)) *
      (s.getD (⌈p⌉).toNat 0 - s.getD (⌊p⌋).toNat 0) :=
    mul_nonneg (by linarith) (by linarith)
  show s.getD 0 0 ≤ s.getD (⌊p⌋).toNat 0 +
    (p - ((⌊p⌋).toNat : ℚ)) * (s.getD (⌈p⌉).toNat 0 - s.getD (⌊p⌋).toNat 0)
  linarith

theorem quantileEdges_all_ge_head (values : List ℚ) (q : ℕ) (hq : 0 < q)
    (hv : values ≠ []) (e : ℚ) (he : e ∈ quantileEdges values q) :
    (values.insertionSort (· ≤ ·)).getD 0 0 ≤ e := by
  rcases List.mem_map.mp he with ⟨i, hi, rfl⟩
  have hiq : i ≤ q := by
    have := List.mem_range.mp hi
    omega
  have hs : (values.insertionSort (· ≤ ·)).Sorted (· ≤ ·) :=
    List.sorted_insertionSort _ _
  have hne : values.insertionSort (· ≤ ·) ≠ [] := by
    intro hcon
    exact hv (List.eq_nil_of_length_eq_zero
      (by rw [← List.length_insertionSort (· ≤ ·) values, hcon, List.length_nil]))
  have hlen1 : 1 ≤ (values.insertionSort (· ≤ ·)).length := List.length_pos.mpr hne
  apply interpQuantile_ge_head _ hs hne
  · apply div_nonneg
    · apply mul_nonneg (by positivity)
      have : (1 : ℚ) ≤ ((values.insertionSort (· ≤ ·)).length : ℚ) := by
        exact_mod_cast hlen1
      linarith
    · positivity
  · rw [div_le_iff₀ (by positivity)]
    have hn1 : (0 : ℚ) ≤ ((values.insertionSort (· ≤ ·)).length : ℚ) - 1 := by
      have : (1 : ℚ) ≤ ((values.insertionSort (· ≤ ·)).length : ℚ) := by
        exact_mod_cast hlen1
      linarith
    have hiq' : (i : ℚ) ≤ (q : ℚ) := by exact_mod_cast hiq
    nlinarith

theorem quantileEdges_head (values : List ℚ) (q : ℕ) :
    (quantileEdges values q).headD 0 =
      (values.insertionSort (· ≤ ·)).getD 0 0 := by
  rw [quantileEdges]
  rw [List.range_succ_eq_map]
  simp only [List.map_cons, List.headD_cons]
  rw [interpQuantile]
  push_cast
  ring_nf
  simp [Int.floor_zero, Int.ceil_zero]

theorem quantileEdges_last_mem (values : List ℚ) (q : ℕ) (hq : 0 < q)
    (hv : values ≠ []) :
    (values.insertionSort (· ≤ ·)).getD
        ((values.insertionSort (· ≤ ·)).length - 1) 0 ∈
      quantileEdges values q := by
  have hmem : q ∈ List.range (q + 1) := List.mem_range.mpr (by omega)
  have hne : values.insertionSort (· ≤ ·) ≠ [] := by
    intro hcon
    exact hv (List.eq_nil_of_length_eq_zero
      (by rw [← List.length_insertionSort (· ≤ ·) values, hcon, List.length_nil]))
  have hlen1 : 1 ≤ (values.insertionSort (· ≤ ·)).length := List.length_pos.mpr hne
  have hval : interpQuantile (values.insertionSort (· ≤ ·))
      ((q : ℚ) * (((values.insertionSort (· ≤ ·)).length : ℚ) - 1) / (q : ℚ)) =
      (values.insertionSort (· ≤ ·)).getD
        ((values.insertionSort (· ≤ ·)).length - 1) 0 := by
    have hqne : (q : ℚ) ≠ 0 := by positivity
    rw [mul_div_cancel_left₀ _ hqne]
    have hcast : ((values.insertionSort (· ≤ ·)).length : ℚ) - 1 =
        (((values.insertionSort (· ≤ ·)).length - 1 : ℕ) : ℚ) := by
      push_cast [hlen1]
      ring
    rw [hcast, interpQuantile]
    simp only [Int.floor_natCast, Int.ceil_natCast, Int.toNat_natCast]
    ring
  rw [← hval]
  rw [quantileEdges]
  exact List.mem_map.mpr ⟨q, hmem, rfl⟩

theorem sorted_headD_le_mem (l : List ℚ) (hs : l.Sorted (· ≤ ·)) (x : ℚ)
    (hx : x ∈ l) : l.headD 0 ≤ x := by
  cases l with
  | nil => cases hx
  | cons a t =>
    rcases List.mem_cons.mp hx with h | h
    · subst h; exact le_refl _
    · exact (List.sorted_cons.mp hs).1 x h

theorem dedupAdj_headD {α : Type} [DecidableEq α] (l : List α) (d : α) :
    (dedupAdj l).headD d = l.headD d := by
  cases l with
  | nil => rfl
  | cons a t =>
    rcases dedupAdj_head a t with ⟨u, hu⟩
    rw [hu]
    rfl

theorem qcutEdges_headD (values : List ℚ) (q : ℕ) (hq : 0 < q)
    (hv : values ≠ []) :
    (qcutEdges values q).headD 0 =
      (values.insertionSort (· ≤ ·)).getD 0 0 := by
  rw [qcutEdges, npUnique, dedupAdj_headD]
  set edges0 := quantileEdges values q with hedges0
  have hperm := List.perm_insertionSort (α := ℚ) (· ≤ ·) edges0
  have hsorted := List.sorted_insertionSort (α := ℚ) (· ≤ ·) edges0
  have hne0 : edges0 ≠ [] := by
    rw [hedges0, quantileEdges]
    simp [List.range_succ_eq_map]
  have hne1 : edges0.insertionSort (· ≤ ·) ≠ [] := by
    intro hcon
    exact hne0 (List.eq_nil_of_length_eq_zero (by
      rw [← List.length_insertionSort (· ≤ ·) edges0, hcon, List.length_nil]))
  -- the head of the sorted edges is both a member of edges0 and a lower
  -- bound for it, hence equals the minimum edge, which is the minimum value
  have hhead_mem : (edges0.insertionSort (· ≤ ·)).headD 0 ∈ edges0 := by
    have : (edges0.insertionSort (· ≤ ·)).headD 0 ∈ edges0.insertionSort (· ≤ ·) := by
      cases h : edges0.insertionSort (· ≤ ·) with
      | nil => exact absurd h hne1
      | cons a t => simp
    exact hperm.mem_iff.mp this
  have hge : (values.insertionSort (· ≤ ·)).getD 0 0 ≤
      (edges0.insertionSort (· ≤ ·)).headD 0 :=
    quantileEdges_all_ge_head values q hq hv _ hhead_mem
  have hle : (edges0.insertionSort (· ≤ ·)).headD 0 ≤
      (values.insertionSort (· ≤ ·)).getD 0 0 := by
    apply sorted_headD_le_mem _ hsorted
    apply hperm.mem_iff.mpr
    rw [← quantileEdges_head values q, hedges0]
    cases h : edges0 with
    | nil => exact absurd h hne0
    | cons a t => rw [hedges0] at h; rw [h]; simp
  linarith

theorem two_mem_length_le {α : Type} (l : List α) (x y : α) (hx : x ∈ l)
    (hy : y ∈ l) (hxy : x ≠ y) : 2 ≤ l.length := by
  cases l with
  | nil => cases hx
  | cons a t =>
    cases t with
    | nil =>
      simp only [List.mem_singleton] at hx hy
      exact absurd (hx.trans hy.symm) hxy
    | cons b u => simp [Nat.succ_le_succ, Nat.le_add_left]

theorem sorted_mem_le_last (l : List ℚ) (hs : l.Sorted (· ≤ ·)) (x : ℚ)
    (hx : x ∈ l) : x ≤ l.getD (l.length - 1) 0 := by
  rcases List.mem_iff_get.mp hx with ⟨i, rfl⟩
  have hlast : l.length - 1 < l.length := by
    have := i.isLt
    omega
  rw [List.getD_eq_getElem l 0 hlast]
  have : l.get i = l[(i : ℕ)] := rfl
  rw [this]
  have hle : (i : ℕ) ≤ l.length - 1 := by
    have := i.isLt
    omega
  exact hs.rel_get_of_le (a := ⟨i, i.isLt⟩) (b := ⟨l.length - 1, hlast⟩) hle

theorem qcutBinOf_min (values : List ℚ) (q : ℕ) (hq : 0 < q) (hv : values ≠ [])
    (hlen2 : 2 ≤ (qcutEdges values q).length) :
    qcutBinOf (qcutEdges values q)
      ((values.insertionSort (· ≤ ·)).getD 0 0) = some 0 := by
  rw [qcutBinOf, qcutId]
  rw [qcutEdges_headD values q hq hv, if_pos rfl]
  have h1 : ¬ (1 = (qcutEdges values q).length ∨ 1 = 0) := by omega
  rw [if_neg h1]

theorem headD_eq_getD_zero (l : List ℚ) : l.headD 0 = l.getD 0 0 := by
  cases l <;> rfl

theorem qcutEdges_length_two (values : List ℚ) (q : ℕ) (hq : 0 < q)
    (hv : values ≠ []) (hab : ∃ a ∈ values, ∃ b ∈ values, a ≠ b) :
    2 ≤ (qcutEdges values q).length := by
  rcases hab with ⟨a, ha, b, hb, hab⟩
  have hperm := List.perm_insertionSort (α := ℚ) (· ≤ ·) values
  have hsorted := List.sorted_insertionSort (α := ℚ) (· ≤ ·) values
  have hne : values.insertionSort (· ≤ ·) ≠ [] := by
    intro hcon
    exact hv (List.eq_nil_of_length_eq_zero (by
      rw [← List.length_insertionSort (· ≤ ·) values, hcon, List.length_nil]))
  have hne0 : quantileEdges values q ≠ [] := by
    rw [quantileEdges]
    simp [List.range_succ_eq_map]
  have hs0_mem : (values.insertionSort (· ≤ ·)).getD 0 0 ∈ quantileEdges values q := by
    rw [← quantileEdges_head values q]
    cases h : quantileEdges values q with
    | nil => exact absurd h hne0
    | cons x t => simp
  have hsl_mem := quantileEdges_last_mem values q hq hv
  have hs0_ne_sl : (values.insertionSort (· ≤ ·)).getD 0 0 ≠
      (values.insertionSort (· ≤ ·)).getD
        ((values.insertionSort (· ≤ ·)).length - 1) 0 := by
    intro heq
    have ha' : a ∈ values.insertionSort (· ≤ ·) := hperm.mem_iff.mpr ha
    have hb' : b ∈ values.insertionSort (· ≤ ·) := hperm.mem_iff.mpr hb
    have h1 : (values.insertionSort (· ≤ ·)).getD 0 0 ≤ a := by
      rw [← headD_eq_getD_zero]
      exact sorted_headD_le_mem _ hsorted a ha'
    have h2 : a ≤ (values.insertionSort (· ≤ ·)).getD
        ((values.insertionSort (· ≤ ·)).length - 1) 0 :=
      sorted_mem_le_last _ hsorted a ha'
    have h3 : (values.insertionSort (· ≤ ·)).getD 0 0 ≤ b := by
      rw [← headD_eq_getD_zero]
      exact sorted_headD_le_mem _ hsorted b hb'
    have h4 : b ≤ (values.insertionSort (· ≤ ·)).getD
        ((values.insertionSort (· ≤ ·)).length - 1) 0 :=
      sorted_mem_le_last _ hsorted b hb'
    apply hab
    linarith
  exact two_mem_length_le _ _ _
    ((mem_npUnique _ _).mpr hs0_mem)
    ((mem_npUnique _ _).mpr hsl_mem)
    hs0_ne_sl

theorem nat_mem_le_sum (l : List ℕ) (x : ℕ) (hx : x ∈ l) : x ≤ l.sum := by
  induction l with
  | nil => cases hx
  | cons a t ih =>
    rcases List.mem_cons.mp hx with h | h
    · subst h; simp
    · have := ih h
      simp only [List.sum_cons]
      omega

theorem lift_positive (y_true y_pred : List ℚ) (h : y_true.length = y_pred.length)
    (hab : ∃ a ∈ y_pred, ∃ b ∈ y_pred, a ≠ b) :
    0 < liftCountSum (compute_lift_chart_data y_true y_pred 10) := by
  have hv : y_pred ≠ [] := by
    rcases hab with ⟨a, ha, _⟩
    exact List.ne_nil_of_mem ha
  have hperm := List.perm_insertionSort (α := ℚ) (· ≤ ·) y_pred
  have hne : y_pred.insertionSort (· ≤ ·) ≠ [] := by
    intro hcon
    exact hv (List.eq_nil_of_length_eq_zero (by
      rw [← List.length_insertionSort (· ≤ ·) y_pred, hcon, List.length_nil]))
  -- the minimum prediction is a member of the prediction column
  have hs0_mem : (y_pred.insertionSort (· ≤ ·)).getD 0 0 ∈ y_pred := by
    apply hperm.mem_iff.mp
    rw [← headD_eq_getD_zero]
    cases hcase : y_pred.insertionSort (· ≤ ·) with
    | nil => exact absurd hcase hne
    | cons x t => simp
  -- a row of the held-out set carries the minimum prediction
  have hrow : ∃ r ∈ y_pred.zip y_true, r.1 = (y_pred.insertionSort (· ≤ ·)).getD 0 0 := by
    have hmapfst : (y_pred.zip y_true).map Prod.fst = y_pred :=
      List.map_fst_zip y_pred y_true (le_of_eq h.symm)
    have hs0' : (y_pred.insertionSort (· ≤ ·)).getD 0 0 ∈
        (y_pred.zip y_true).map Prod.fst := by
      rw [hmapfst]; exact hs0_mem
    rcases List.mem_map.mp hs0' with ⟨r, hr, hr1⟩
    exact ⟨r, hr, hr1⟩
  rcases hrow with ⟨r, hr, hr1⟩
  have hrsorted : r ∈ (y_pred.zip y_true).insertionSort (fun a b => a.1 ≤ b.1) :=
    (List.perm_insertionSort _ _).mem_iff.mpr hr
  -- that row is assigned bin 0
  have hlen2 : 2 ≤ (qcutEdges y_pred 10).length :=
    qcutEdges_length_two y_pred 10 (by omega) hv hab
  have hbin : qcutBinOf (qcutEdges y_pred 10) r.1 = some 0 := by
    rw [hr1]
    exact qcutBinOf_min y_pred 10 (by omega) hv hlen2
  have hmem_binned : (some 0, r) ∈
      ((y_pred.zip y_true).insertionSort (fun a b => a.1 ≤ b.1)).map
        (fun r => (qcutBinOf (qcutEdges y_pred 10) r.1, r)) := by
    apply List.mem_map.mpr
    exact ⟨r, hrsorted, by rw [hbin]⟩
  have hfil : ((some 0, r) : Option ℕ × (ℚ × ℚ)) ∈
      (((y_pred.zip y_true).insertionSort (fun a b => a.1 ≤ b.1)).map
        (fun r => (qcutBinOf (qcutEdges y_pred 10) r.1, r))).filter
        (fun br => br.1 = some 0) :=
    List.mem_filter.mpr ⟨hmem_binned, by simp⟩
  have hlen0 : 0 < ((((y_pred.zip y_true).insertionSort (fun a b => a.1 ≤ b.1)).map
      (fun r => (qcutBinOf (qcutEdges y_pred 10) r.1, r))).filter
      (fun br => br.1 = some 0)).length :=
    List.length_pos.mpr (List.ne_nil_of_mem hfil)
  rw [compute_lift_chart_data, liftCountSum_filterMap]
  have h0range : (0 : ℕ) ∈ List.range 10 := List.mem_range.mpr (by omega)
  have hterm : ((((y_pred.zip y_true).insertionSort (fun a b => a.1 ≤ b.1)).map
      (fun r => (qcutBinOf (qcutEdges y_pred 10) r.1, r))).filter
      (fun br => br.1 = some 0)).length ∈
      (List.range 10).map (fun bin_num =>
        ((((y_pred.zip y_true).insertionSort (fun a b => a.1 ≤ b.1)).map
          (fun r => (qcutBinOf (qcutEdges y_pred 10) r.1, r))).filter
          (fun br => br.1 = some bin_num)).length) :=
    List.mem_map.mpr ⟨0, h0range, rfl⟩
  have := nat_mem_le_sum _ _ hterm
  omega

theorem dedupAdj_const {α : Type} [DecidableEq α] (l : List α) (c : α)
    (hl : l ≠ []) (h : ∀ x ∈ l, x = c) : dedupAdj l = [c] := by
  induction l with
  | nil => exact absurd rfl hl
  | cons a t ih =>
    have hac : a = c := h a (List.mem_cons_self _ _)
    cases t with
    | nil => rw [dedupAdj_singleton, hac]
    | cons b u =>
      have hbc : b = c := h b (List.mem_cons_of_mem _ (List.mem_cons_self _ _))
      have hab : a = b := hac.trans hbc.symm
      rw [hab, dedupAdj_cons_eq]
      exact ih (by simp) (fun x hx => h x (List.mem_cons_of_mem _ hx))

theorem interpQuantile_const (s : List ℚ) (c : ℚ) (hall : ∀ x ∈ s, x = c)
    (hn : s ≠ []) (p : ℚ) (hp0 : 0 ≤ p) (hpn : p ≤ (s.length : ℚ) - 1) :
    interpQuantile s p = c := by
  have h1 : 1 ≤ s.length := List.length_pos.mpr hn
  have hfl0 : (0 : ℤ) ≤ ⌊p⌋ := Int.le_floor.mpr (by exact_mod_cast hp0)
  have hceil : ⌈p⌉ ≤ (s.length : ℤ) - 1 := by
    apply Int.ceil_le.mpr
    push_cast
    exact hpn
  have hhi : (⌈p⌉).toNat < s.length := by omega
  have hlo : (⌊p⌋).toNat < s.length := by
    have := Int.floor_le_ceil p
    omega
  have hgetlo : s.getD (⌊p⌋).toNat 0 = c := by
    rw [List.getD_eq_getElem s 0 hlo]
    exact hall _ (List.getElem_mem hlo)
  have hgethi : s.getD (⌈p⌉).toNat 0 = c := by
    rw [List.getD_eq_getElem s 0 hhi]
    exact hall _ (List.getElem_mem hhi)
  show s.getD (⌊p⌋).toNat 0 +
    (p - ((⌊p⌋).toNat : ℚ)) * (s.getD (⌈p⌉).toNat 0 - s.getD (⌊p⌋).toNat 0) = c
  rw [hgetlo, hgethi]
  ring

theorem quantileEdges_const (values : List ℚ) (c : ℚ) (q : ℕ) (hq : 0 < q)
    (hv : values ≠ []) (hall : ∀ x ∈ values, x = c) :
    ∀ e ∈ quantileEdges values q, e = c := by
  intro e he
  rcases List.mem_map.mp he with ⟨i, hi, rfl⟩
  have hiq : i ≤ q := by
    have := List.mem_range.mp hi
    omega
  have hperm := List.perm_insertionSort (α := ℚ) (· ≤ ·) values
  have hne : values.insertionSort (· ≤ ·) ≠ [] := by
    intro hcon
    exact hv (List.eq_nil_of_length_eq_zero (by
      rw [← List.length_insertionSort (· ≤ ·) values, hcon, List.length_nil]))
  have hlen1 : 1 ≤ (values.insertionSort (· ≤ ·)).length := List.length_pos.mpr hne
  apply interpQuantile_const _ c
  · intro x hx
    exact hall x (hperm.mem_iff.mp hx)
  · exact hne
  · apply div_nonneg
    · apply mul_nonneg (by positivity)
      have : (1 : ℚ) ≤ ((values.insertionSort (· ≤ ·)).length : ℚ) := by
        exact_mod_cast hlen1
      linarith
    · positivity
  · rw [div_le_iff₀ (by positivity)]
    have hn1 : (0 : ℚ) ≤ ((values.insertionSort (· ≤ ·)).length : ℚ) - 1 := by
      have : (1 : ℚ) ≤ ((values.insertionSort (· ≤ ·)).length : ℚ) := by
        exact_mod_cast hlen1
      linarith
    have hiq' : (i : ℚ) ≤ (q : ℚ) := by exact_mod_cast hiq
    nlinarith

theorem qcutEdges_const (values : List ℚ) (c : ℚ) (q : ℕ) (hq : 0 < q)
    (hv : values ≠ []) (hall : ∀ x ∈ values, x = c) :
    qcutEdges values q = [c] := by
  rw [qcutEdges, npUnique]
  apply dedupAdj_const
  · intro hcon
    have hne0 : quantileEdges values q ≠ [] := by
      rw [quantileEdges]
      simp [List.range_succ_eq_map]
    exact hne0 (List.eq_nil_of_length_eq_zero (by
      rw [← List.length_insertionSort (· ≤ ·) (quantileEdges values q), hcon,
        List.length_nil]))
  · intro x hx
    exact quantileEdges_const values c q hq hv hall x
      ((List.perm_insertionSort _ _).mem_iff.mp hx)

theorem compute_lift_chart_data_const (y_true y_pred : List ℚ) (c : ℚ)
    (hv : y_pred ≠ []) (hall : ∀ x ∈ y_pred, x = c) :
    compute_lift_chart_data y_true y_pred 10 = [] := by
  have hedges : qcutEdges y_pred 10 = [c] :=
    qcutEdges_const y_pred c 10 (by omega) hv hall
  rw [compute_lift_chart_data]
  apply List.filterMap_eq_nil_iff.mpr
  intro b hb
  have hfilter : (((y_pred.zip y_true).insertionSort (fun a b => a.1 ≤ b.1)).map
      (fun r => (qcutBinOf (qcutEdges y_pred 10) r.1, r))).filter
      (fun br => br.1 = some b) = [] := by
    apply List.filter_eq_nil_iff.mpr
    intro br hbr
    rcases List.mem_map.mp hbr with ⟨r, hr, rfl⟩
    have hr' : r ∈ y_pred.zip y_true := (List.perm_insertionSort _ _).mem_iff.mp hr
    have hr1 : r.1 = c := hall r.1 (List.of_mem_zip hr').1
    have : qcutBinOf (qcutEdges y_pred 10) r.1 = none := by
      rw [hedges, hr1, qcutBinOf, qcutId]
      simp [searchsortedLeft]
    simp [this]
  simp only [hfilter]
  simp

/-- C9 (amended): for every held-out set, the sum of the returned
lift-chart bin counts never exceeds the held-out row count, at most 10 bins
are returned (each reporting its average predicted probability, actual
positive rate and row count, by the `LiftBin` record), and the sum is
positive whenever the held-out set contains at least two distinct predicted
probabilities; with all predictions identical, degenerate binning drops
every row and zero bins are returned (see the counterexample). -/
theorem c9_lift_chart_coverage (y_true y_pred : List ℚ)
    (h : y_true.length = y_pred.length) :
    liftCountSum (compute_lift_chart_data y_true y_pred 10) ≤ y_pred.length ∧
    (compute_lift_chart_data y_true y_pred 10).length ≤ 10 ∧
    ((∃ a ∈ y_pred, ∃ b ∈ y_pred, a ≠ b) →
      0 < liftCountSum (compute_lift_chart_data y_true y_pred 10)) := by
  refine ⟨?_, ?_, fun hab => lift_positive y_true y_pred h hab⟩
  · rw [compute_lift_chart_data, liftCountSum_filterMap]
    calc (List.map (fun bin_num =>
          (((y_pred.zip y_true).insertionSort (fun a b => a.1 ≤ b.1)).map
              (fun r => (qcutBinOf (qcutEdges y_pred 10) r.1, r)) |>.filter
            (fun br => br.1 = some bin_num)).length) (List.range 10)).sum
        ≤ (((y_pred.zip y_true).insertionSort (fun a b => a.1 ≤ b.1)).map
              (fun r => (qcutBinOf (qcutEdges y_pred 10) r.1, r))).length :=
          sum_filter_counts_le _ _ (List.nodup_range 10) _
      _ ≤ y_pred.length := by
          rw [List.length_map, List.length_insertionSort, List.length_zip]
          omega
  · calc (compute_lift_chart_data y_true y_pred 10).length
        ≤ (List.range 10).length := List.length_filterMap_le _ _
      _ = 10 := List.length_range 10

/-- C9 counterexample: on the non-empty held-out set with labels [0, 1] and
identical predicted probabilities [1/2, 1/2], every quantile edge collapses,
qcut drops all rows, and the lift chart is empty — the bin-count sum is 0
although the held-out set is non-empty, refuting the unconditional
positivity claim. -/
theorem c9_constant_predictions_counterexample :
    compute_lift_chart_data [0, 1] [1/2, 1/2] 10 = [] ∧
    liftCountSum (compute_lift_chart_data [0, 1] [1/2, 1/2] 10) = 0 ∧
    ([1/2, 1/2] : List ℚ).length ≠ 0 := by
  have h : compute_lift_chart_data [0, 1] [1/2, 1/2] 10 = [] := by
    apply compute_lift_chart_data_const [0, 1] [1/2, 1/2] (1/2) (by simp)
    intro x hx
    simp only [List.mem_cons, List.mem_singleton, List.not_mem_nil, or_false] at hx
    rcases hx with hx | hx <;> exact hx
  exact ⟨h, by rw [h]; rfl, by simp⟩

theorem c9_lift_chart_coverage_witness :
    ([0, 1] : List ℚ).length = ([1/10, 9/10] : List ℚ).length ∧
    liftCountSum (compute_lift_chart_data [0, 1] [1/10, 9/10] 10) ≤
      ([1/10, 9/10] : List ℚ).length ∧
    (compute_lift_chart_data [0, 1] [1/10, 9/10] 10).length ≤ 10 ∧
    0 < liftCountSum (compute_lift_chart_data [0, 1] [1/10, 9/10] 10) :=
  ⟨rfl, (c9_lift_chart_coverage [0, 1] [1/10, 9/10] rfl).1,
    (c9_lift_chart_coverage [0, 1] [1/10, 9/10] rfl).2.1,
    (c9_lift_chart_coverage [0, 1] [1/10, 9/10] rfl).2.2
      ⟨1/10, by simp, 9/10, by simp, by norm_num⟩⟩

end XgbApp
